import Mathlib

/-!
Verification development for the mattermost-mcp-python synchronization core.

This file shallowly embeds the parts of the code base that the checked
properties are about and proves those properties:

* `api/client.py` — the token-bucket `RateLimiter`, the retry loop
  `_make_request_with_retries`, and the final-response interpretation
  `_handle_response`;
* `api/exceptions.py` — the status-code error classifier
  `create_http_exception`;
* `resources/reactions.py` — the reaction poll-cycle reconciliation
  (`_poll_for_updates` / `_poll_channel_reactions`) and `read`;
* `resources/channel_posts.py` — the per-channel post poll reconciliation
  (`_poll_channel_posts`) and `read`;
* `events/websocket.py` — the reconnect loop `_connection_loop`.

Conventions: machine floats of the source are modelled as rationals (the
source performs only +, *, /, min on them); monotonic clock readings are
rationals passed explicitly; effectful fetches are modelled as `Except`
values; an exception raised by a Python function is an `Except.error`
result of its embedding.
-/

namespace MattermostMCP

/-! ## Rate limiter — `api/client.py`, class `RateLimiter`

State of a `RateLimiter` instance: configuration (`requests_per_second`,
`burst`) plus the mutable fields `tokens` and `last_refill`.  `acquire`
takes the current monotonic-clock reading and returns the time slept
together with the new state.
-/

structure RateLimiterState where
  requests_per_second : ℚ
  burst : ℕ
  tokens : ℚ
  last_refill : ℚ
deriving Repr, DecidableEq

/-- One call of `RateLimiter.acquire` (client.py lines 38-56): refill
`tokens` by `elapsed * requests_per_second` capped at `burst`, advance
`last_refill`; if at least one token is available consume it with no
wait, otherwise sleep `(1 - tokens) / requests_per_second` and leave the
count at zero.  Returns `(wait, new state)`. -/
def RateLimiterState.acquire (s : RateLimiterState) (now : ℚ) : ℚ × RateLimiterState :=
  let elapsed := now - s.last_refill
  let t := min (s.burst : ℚ) (s.tokens + elapsed * s.requests_per_second)
  if 1 ≤ t then
    (0, { s with tokens := t - 1, last_refill := now })
  else
    ((1 - t) / s.requests_per_second, { s with tokens := 0, last_refill := now })

/-- Repeated back-to-back `acquire` calls (no time elapses between them: each
call happens at the clock reading recorded by the previous one).
Returns the list of waits and the final state. -/
def RateLimiterState.acquireSeq (s : RateLimiterState) : ℕ → List ℚ × RateLimiterState
  | 0 => ([], s)
  | n + 1 =>
    let p := s.acquireSeq n
    let q := p.2.acquire p.2.last_refill
    (p.1 ++ [q.1], q.2)

/-! ## HTTP error classification — `api/exceptions.py`

The classifier looks at the response status code, the JSON body (when the
content type is `application/json` and the body parses to a dict) and the
`Retry-After` header.  `BodyContent` records the outcome of the
content-type check plus JSON parse: `raw` covers both a non-JSON content
type and an unparsable body (the source treats them alike), `jsonDict`
a parsed JSON object (field values rendered to strings, as the source
interpolates them into an f-string), `jsonOther` parsed non-dict JSON.
-/

inductive ErrorKind where
  | validation
  | authentication
  | authorization
  | notFound
  | conflict
  | rateLimit
  | server
  | generic
deriving Repr, DecidableEq

inductive BodyContent where
  | raw (text : String)
  | jsonDict (fields : List (String × String))
  | jsonOther
deriving Repr, DecidableEq

structure HttpResponseModel where
  status_code : ℕ
  body : BodyContent
  retry_after_header : Option String
deriving Repr, DecidableEq

/-- Result of raising one of the typed exceptions of `api/exceptions.py`:
which class was raised, its message, its `status_code`, and (for
`RateLimitError`) its `retry_after` field. -/
structure HttpErrorModel where
  kind : ErrorKind
  message : String
  status_code : Option ℕ
  retry_after : Option ℚ
deriving Repr, DecidableEq

/-- Dict lookup on a parsed JSON object (first binding of the name wins). -/
def lookupField (fields : List (String × String)) (name : String) : Option String :=
  (fields.find? (fun p => p.1 = name)).map (fun p => p.2)

/-- The candidate message fields tried by `create_http_exception`, in
source order. -/
def errorMessageFields : List String :=
  ["message", "error", "detail", "error_description"]

/-- Value of the first candidate field present in the parsed body, if any
(the `for field in [...]` loop of exceptions.py lines 225-228). -/
def firstErrorField (fields : List (String × String)) : List String → Option String
  | [] => none
  | n :: ns =>
    match lookupField fields n with
    | some v => some v
    | none => firstErrorField fields ns

/-- Message construction of `create_http_exception` (exceptions.py lines
217-231): default `"HTTP <code>"`; when the body is a JSON dict and one
of the candidate fields is present, `"HTTP <code>: <value>"` built from
the first present field. -/
def extractedMessage (status : ℕ) (body : BodyContent) : String :=
  match body with
  | .jsonDict fields =>
    match firstErrorField fields errorMessageFields with
    | some v => "HTTP " ++ toString status ++ ": " ++ v
    | none => "HTTP " ++ toString status
  | _ => "HTTP " ++ toString status

/-- Digit-string to number, `none` when empty or containing a non-digit. -/
def parseDigits (cs : List Char) : Option ℕ :=
  if cs ≠ [] ∧ cs.all Char.isDigit then
    some (cs.foldl (fun a c => a * 10 + (c.toNat - 48)) 0)
  else
    none

/-- Split a character list on the dot separator (the shape
`int [. frac]` of a decimal literal). -/
def splitOnDot : List Char → List Char → List (List Char)
  | [], acc => [acc.reverse]
  | c :: cs, acc =>
    if c = '.' then acc.reverse :: splitOnDot cs [] else splitOnDot cs (c :: acc)

/-- Model of Python `float(s)` restricted to the unsigned decimal literals
the `Retry-After` header carries: an integer part with an optional
fractional part; anything else raises `ValueError`, i.e. `none`. -/
def parseFloatString (s : String) : Option ℚ :=
  match splitOnDot s.toList [] with
  | [w] => (parseDigits w).map (fun n => (n : ℚ))
  | [w, f] =>
    match parseDigits w, parseDigits f with
    | some wn, some fn => some ((wn : ℚ) + (fn : ℚ) / (10 : ℚ) ^ f.length)
    | _, _ => none
  | _ => none

/-- The status-code dispatch of `create_http_exception` (exceptions.py
lines 233-257): builds the typed error for a ≥400 response, parsing the
`Retry-After` header into the `retry_after` field for a 429. -/
def create_http_exception (r : HttpResponseModel) : HttpErrorModel :=
  let message := extractedMessage r.status_code r.body
  if r.status_code = 400 then
    ⟨.validation, message, some r.status_code, none⟩
  else if r.status_code = 401 then
    ⟨.authentication, message, some r.status_code, none⟩
  else if r.status_code = 403 then
    ⟨.authorization, message, some r.status_code, none⟩
  else if r.status_code = 404 then
    ⟨.notFound, message, some r.status_code, none⟩
  else if r.status_code = 409 then
    ⟨.conflict, message, some r.status_code, none⟩
  else if r.status_code = 429 then
    ⟨.rateLimit, message, some r.status_code, r.retry_after_header.bind parseFloatString⟩
  else if 500 ≤ r.status_code ∧ r.status_code < 600 then
    ⟨.server, message, some r.status_code, none⟩
  else
    ⟨.generic, message, some r.status_code, none⟩

/-! ## Final-response interpretation — `api/client.py`, `_handle_response` -/

/-- Model of `_parse_response_data`: it returns the parsed JSON when the content type
indicates JSON and the body parses, otherwise the raw text; `BodyContent`
already records exactly that outcome. -/
def parse_response_data (r : HttpResponseModel) : BodyContent :=
  r.body

/-- Result of `_handle_response`: the courtesy sleeps performed and
either the raised typed error or the parsed body. -/
structure HandleResult where
  sleeps : List ℚ
  outcome : Except HttpErrorModel BodyContent
deriving Repr

/-- Behavior of `_handle_response` (client.py lines 212-245): a 429 first sleeps the
parsed `Retry-After` value when the header is present and parses, then
raises `RateLimitError` with message `"Rate limit exceeded: <code>"` and
`retry_after` left at its default `None`; a 401 raises
`AuthenticationError`; any other ≥400 raises `create_http_exception`;
otherwise the parsed body is returned. -/
def handle_response (r : HttpResponseModel) : HandleResult :=
  if r.status_code = 429 then
    { sleeps :=
        match r.retry_after_header.bind parseFloatString with
        | some w => [w]
        | none => []
      outcome := .error
        ⟨.rateLimit, "Rate limit exceeded: " ++ toString r.status_code,
          some r.status_code, none⟩ }
  else if r.status_code = 401 then
    { sleeps := []
      outcome := .error ⟨.authentication, "Authentication failed", some r.status_code, none⟩ }
  else if 400 ≤ r.status_code then
    { sleeps := [], outcome := .error (create_http_exception r) }
  else
    { sleeps := [], outcome := .ok (parse_response_data r) }

/-! ## Retry loop — `api/client.py`, `_make_request_with_retries`

One attempt either yields a response or raises a network/timeout
exception (`httpx.RequestError` / `httpx.TimeoutException`); a run of the
loop is driven by a script assigning each attempt index its outcome.
-/

inductive AttemptOutcome where
  | response (r : HttpResponseModel)
  | network_error (msg : String)
deriving Repr

structure RetryConfig where
  max_retries : ℕ
  retry_backoff_factor : ℚ
  retry_on_status : List ℕ
deriving Repr

/-- The default retryable status set (client.py line 105). -/
def defaultRetryOnStatus : List ℕ :=
  [429, 500, 502, 503, 504]

/-- Trace of one run of the retry loop: how many rate-limiter `acquire`
calls were made (one per attempt, at its start), the backoff sleeps in
order, and the outcome — the response the loop returned, or the message
of the wrapped `HTTPError` it raised after exhaustion. -/
structure RetryTrace where
  acquires : ℕ
  sleeps : List ℚ
  outcome : Except String HttpResponseModel
deriving Repr

/-- The wrapped-exhaustion message `f"Request failed after {max_retries}
retries: {last_exception}"` (client.py lines 310-314). -/
def wrappedFailureMsg (cfg : RetryConfig) (lastExn : Option String) : String :=
  match lastExn with
  | some e => "Request failed after " ++ toString cfg.max_retries ++ " retries: " ++ e
  | none => "Request failed after " ++ toString cfg.max_retries ++ " retries"

/-- Body of the `for attempt in range(max_retries + 1)` loop (client.py
lines 259-314).  `attempt` is the current index; `fuel` the number of
iterations the range still allows (initially `max_retries + 1`), so that
the source guard `attempt < max_retries` is `1 < fuel`.  A retryable
status or a network error with attempts remaining sleeps
`retry_backoff_factor * 2 ^ attempt` and continues; a response otherwise
is returned (even a retryable-status response on the last attempt); a
network error on the last attempt breaks out and raises the wrapped
`HTTPError`. -/
def retryAux (cfg : RetryConfig) (script : ℕ → AttemptOutcome) :
    ℕ → ℕ → RetryTrace
  | _, 0 => { acquires := 0, sleeps := [], outcome := .error (wrappedFailureMsg cfg none) }
  | attempt, f + 1 =>
    match script attempt with
    | .response r =>
      if 0 < f ∧ r.status_code ∈ cfg.retry_on_status then
        let t := retryAux cfg script (attempt + 1) f
        { acquires := t.acquires + 1
          sleeps := cfg.retry_backoff_factor * 2 ^ attempt :: t.sleeps
          outcome := t.outcome }
      else
        { acquires := 1, sleeps := [], outcome := .ok r }
    | .network_error e =>
      if 0 < f then
        let t := retryAux cfg script (attempt + 1) f
        { acquires := t.acquires + 1
          sleeps := cfg.retry_backoff_factor * 2 ^ attempt :: t.sleeps
          outcome := t.outcome }
      else
        { acquires := 1, sleeps := [], outcome := .error (wrappedFailureMsg cfg (some e)) }

/-- Entry point `_make_request_with_retries`: run the loop from attempt 0 with
`max_retries + 1` iterations available. -/
def make_request_with_retries (cfg : RetryConfig) (script : ℕ → AttemptOutcome) : RetryTrace :=
  retryAux cfg script 0 (cfg.max_retries + 1)

/-- The transport pipeline of `request` as far as errors are concerned:
run the retry loop, then interpret the final response with
`_handle_response`; a wrapped loop error becomes a plain `HTTPError`
(kind `generic`, no status). -/
def requestOutcome (cfg : RetryConfig) (script : ℕ → AttemptOutcome) :
    Except HttpErrorModel BodyContent :=
  match (make_request_with_retries cfg script).outcome with
  | .error e => .error ⟨.generic, e, none, none⟩
  | .ok r => (handle_response r).outcome

/-! ## Reaction poll reconciliation — `resources/reactions.py`

`_poll_for_updates` traverses channels, posts and reactions, building a
fresh set `current_reactions` of keys `post_id:user_id:emoji_name` and
emitting `REACTION_ADDED` for every traversed reaction whose key is not
in `_known_reactions`; after the traversal, when `_last_poll_time` is
already set, it emits `REACTION_REMOVED` for every key of
`_known_reactions` absent from the fresh set, and finally replaces
`_known_reactions` with the fresh set.  The traversal is modelled by the
list of keys it observes, in order (reactions with a falsy `user_id` or
`emoji_name` are skipped by the source before any key is formed, so they
do not appear in the list).
-/

inductive ReactionUpdate where
  | added (key : String)
  | removed (key : String)
deriving Repr, DecidableEq

structure ReactionPollState where
  known_reactions : List String
  has_polled : Bool
deriving Repr, DecidableEq

/-- State of a fresh `ReactionResource`: empty `_known_reactions`,
`_last_poll_time` unset. -/
def initialReactionState : ReactionPollState :=
  ⟨[], false⟩

/-- One successful poll cycle (`_poll_for_updates`, reactions.py lines
280-328, with the per-channel traversal of `_poll_channel_reactions`
lines 333-408 inlined as the observed key list): the emitted updates in
order (all additions first, then the removals), and the new state. -/
def pollCycleReactions (st : ReactionPollState) (observed : List String) :
    List ReactionUpdate × ReactionPollState :=
  let adds :=
    (observed.filter (fun k => decide (k ∉ st.known_reactions))).map ReactionUpdate.added
  let current := observed.foldl (fun acc k => acc.insert k) []
  let removals :=
    if st.has_polled then
      (st.known_reactions.filter (fun k => decide (k ∉ current))).map ReactionUpdate.removed
    else
      []
  (adds ++ removals, ⟨current, true⟩)

/-! ## Post poll reconciliation — `resources/channel_posts.py` -/

structure PostModel where
  id : String
  create_at : Option ℕ
deriving Repr, DecidableEq

/-- The sort key `p.create_at or 0` used by the source (`None` and `0`
both render as `0`). -/
def postSortKey (p : PostModel) : ℕ :=
  p.create_at.getD 0

/-- The guard `if post.create_at and post.create_at > since_timestamp`
(channel_posts.py line 253): `create_at` present, truthy, and strictly
newer. -/
def postIsNew (since : ℕ) (p : PostModel) : Bool :=
  match p.create_at with
  | some t => t ≠ 0 && decide (since < t)
  | none => false

structure PostPollResult where
  emitted : List PostModel
  new_since : ℕ
deriving Repr, DecidableEq

/-- One run of `_poll_channel_posts` for one channel (channel_posts.py
lines 227-284) on the fetched page: filter the strictly newer posts,
track the running maximum `latest_timestamp` starting from the stored
`since`, store it back only when it grew, sort the new posts ascending
by `create_at or 0` (a stable sort, as in the source) and emit them in
that order. -/
def poll_channel_posts (since : ℕ) (fetched : List PostModel) : PostPollResult :=
  let new_posts := fetched.filter (postIsNew since)
  let latest := new_posts.foldl (fun acc p => max acc (p.create_at.getD 0)) since
  let stored := if since < latest then latest else since
  ⟨new_posts.insertionSort (fun p q => postSortKey p ≤ postSortKey q), stored⟩

/-- The stored timestamp after a sequence of poll cycles, one fetched
page per cycle. -/
def poll_posts_iter (since : ℕ) : List (List PostModel) → ℕ
  | [] => since
  | f :: fs => poll_posts_iter (poll_channel_posts since f).new_since fs

/-! ## Reconnect loop — `events/websocket.py`, `_connection_loop`

One iteration of the `while True` loop either fails inside
`_connect_websocket` (connect or auth failure, `authFail`), or connects
and authenticates — resetting `_reconnect_attempts` to 0 — and later
loses the connection when `_message_loop` raises (`connectedThenLost`).
The exception handler then either breaks out (auto-reconnect off, or the
incremented counter exceeds `max_reconnect_attempts` — the loop ends
without raising) or sleeps `min(reconnect_delay * 2 ** attempts, 300)`
and retries.
-/

structure WsConfig where
  auto_reconnect : Bool
  reconnect_delay : ℚ
  max_reconnect_attempts : ℕ
deriving Repr

inductive ConnIterEvent where
  | authFail
  | connectedThenLost
deriving Repr, DecidableEq

inductive ConnStepResult where
  | retry (delay : ℚ) (attempts : ℕ)
  | gaveUp
deriving Repr, DecidableEq

/-- The hard cap of the reconnect delay (websocket.py line 221). -/
def reconnectCap : ℚ :=
  300

/-- One iteration of `_connection_loop` (websocket.py lines 200-234)
from a given `_reconnect_attempts` value: the delay slept before the
next iteration and the new counter, or `gaveUp` when the loop breaks. -/
def connStep (cfg : WsConfig) (attempts : ℕ) (e : ConnIterEvent) : ConnStepResult :=
  let a0 :=
    match e with
    | .authFail => attempts
    | .connectedThenLost => 0
  if cfg.auto_reconnect = false then
    .gaveUp
  else
    let a := a0 + 1
    if cfg.max_reconnect_attempts < a then
      .gaveUp
    else
      .retry (min (cfg.reconnect_delay * 2 ^ a) reconnectCap) a

structure ConnTrace where
  delays : List ℚ
  stopped : Bool
deriving Repr, DecidableEq

/-- Run of the connection loop over a script of iteration outcomes:
collects the reconnect delays in order; `stopped = true` means the loop
broke out (gave up) during the script, which in the source is a plain
`break` — no exception propagates. -/
def connRun (cfg : WsConfig) (attempts : ℕ) : List ConnIterEvent → ConnTrace
  | [] => ⟨[], false⟩
  | e :: es =>
    match connStep cfg attempts e with
    | .gaveUp => ⟨[], true⟩
    | .retry d a =>
      let t := connRun cfg a es
      ⟨d :: t.delays, t.stopped⟩

/-! ## Snapshot reads — `read` of both concrete resources

The whole body of each `read` sits in one `try` block whose `except
Exception` returns a dict `{resource_uri, error, timestamp}` instead of
re-raising.  The data gathering inside the `try` (channels, posts,
reactions) is abstracted as one `Except` input: `Except.error e` is an
exception with rendered message `e` escaping the gathering, `Except.ok`
the collected records plus the number of channels monitored.  Per-channel
and per-post fetch failures are caught deeper inside and merely skipped,
so they surface here only as missing records in the `ok` payload.
-/

inductive ReadResult (α : Type) where
  | ok (resource_uri : String) (payload : α) (timestamp : String) (channels_monitored : ℕ)
  | errorInfo (resource_uri : String) (error : String) (timestamp : String)
deriving Repr, DecidableEq

/-- Model of `NewChannelPostResource.read` (channel_posts.py lines 76-125): on
success, sort the merged posts descending by `create_at` (missing
rendered as 0) and cap to the 50 most recent; on any failure return the
error dict. -/
def new_channel_posts_read (uri : String) (ts : String)
    (fetch : Except String (List PostModel × ℕ)) : ReadResult (List PostModel) :=
  match fetch with
  | .error e => .errorInfo uri e ts
  | .ok (posts, nch) =>
    .ok uri ((posts.insertionSort (fun p q => postSortKey q ≤ postSortKey p)).take 50) ts nch

structure ReactionRecord where
  post_id : String
  user_id : String
  emoji_name : String
  create_at : Option ℕ
  channel_id : String
deriving Repr, DecidableEq

/-- The sort key `r.get("create_at", 0)` of the reaction snapshot. -/
def reactionSortKey (r : ReactionRecord) : ℕ :=
  r.create_at.getD 0

/-- Model of `ReactionResource.read` (reactions.py lines 76-160): on success,
sort the flattened reactions descending by `create_at` and cap to the
100 most recent; on any failure return the error dict. -/
def reactions_read (uri : String) (ts : String)
    (fetch : Except String (List ReactionRecord × ℕ)) : ReadResult (List ReactionRecord) :=
  match fetch with
  | .error e => .errorInfo uri e ts
  | .ok (rs, nch) =>
    .ok uri ((rs.insertionSort (fun p q => reactionSortKey q ≤ reactionSortKey p)).take 100) ts nch

/-- An attempt outcome that triggers a retry while attempts remain: a
response with a status in the configured retryable set, or any
network/timeout exception. -/
def RetryConfig.retries (cfg : RetryConfig) : AttemptOutcome → Prop
  | .response r => r.status_code ∈ cfg.retry_on_status
  | .network_error _ => True

/-- A concrete final 429 response with header `Retry-After: 30`. -/
def rateLimited429 : HttpResponseModel :=
  ⟨429, BodyContent.jsonDict [("message", "Rate limit exceeded")], some "30"⟩

/-! ## Helper lemmas -/

/-- Membership in the incrementally built fresh reaction set. -/
lemma mem_foldl_insert (l init : List String) (k : String) :
    k ∈ l.foldl (fun acc x => acc.insert x) init ↔ k ∈ init ∨ k ∈ l := by
  induction l generalizing init with
  | nil => simp
  | cons x xs ih =>
    rw [List.foldl_cons, ih]
    simp only [List.mem_insert_iff, List.mem_cons]
    tauto

/-! ## Claim theorems -/

/-- C10: for both concrete resources, `read` never propagates a fetch
failure: it returns the error dict `{resource_uri, error, timestamp}`
(its embedding is a total function into `ReadResult`, and every failing
fetch maps to `errorInfo`). -/
theorem read_returns_error_dict (uri ts e : String) :
    new_channel_posts_read uri ts (Except.error e) = ReadResult.errorInfo uri e ts ∧
    reactions_read uri ts (Except.error e) = ReadResult.errorInfo uri e ts :=
  ⟨rfl, rfl⟩

/-- C2: a poll cycle that observes exactly the keys already in the
known-state cache emits no updates at all. -/
theorem reaction_poll_idempotent (st : ReactionPollState) (observed : List String)
    (hsame : ∀ k, k ∈ observed ↔ k ∈ st.known_reactions) :
    (pollCycleReactions st observed).1 = [] := by
  have hadds : observed.filter (fun k => decide (k ∉ st.known_reactions)) = [] :=
    List.filter_eq_nil_iff.2 (fun a ha => by simp [(hsame a).1 ha])
  have hrem :
      st.known_reactions.filter
        (fun k => decide (k ∉ observed.foldl (fun acc x => acc.insert x) [])) = [] := by
    refine List.filter_eq_nil_iff.2 (fun a ha => ?_)
    have : a ∈ observed.foldl (fun acc x => acc.insert x) [] :=
      (mem_foldl_insert observed [] a).2 (Or.inr ((hsame a).2 ha))
    simp [this]
  simp only [pollCycleReactions, hadds, hrem, List.map_nil, List.nil_append]
  split <;> rfl

/-- C2 witness: an unchanged singleton state produces zero updates. -/
theorem reaction_poll_idempotent_witness :
    (pollCycleReactions ⟨["a"], true⟩ ["a"]).1 = [] :=
  reaction_poll_idempotent ⟨["a"], true⟩ ["a"] (fun k => by simp)

/-- C3: every removal update of a poll cycle references a key present in
the known-state cache at cycle start, and a first cycle (cache not yet
seeded: `_last_poll_time` unset) emits no removal updates at all. -/
theorem reaction_removals_reference_cache (st : ReactionPollState) (observed : List String) :
    (∀ k : String, ReactionUpdate.removed k ∈ (pollCycleReactions st observed).1 →
        k ∈ st.known_reactions) ∧
    (st.has_polled = false →
      ∀ k : String, ReactionUpdate.removed k ∉ (pollCycleReactions st observed).1) := by
  constructor
  · intro k hk
    simp only [pollCycleReactions, List.mem_append, List.mem_map] at hk
    rcases hk with ⟨x, _, hx⟩ | hk
    · cases hx
    · by_cases hp : st.has_polled
      · rw [if_pos hp] at hk
        rcases List.mem_map.1 hk with ⟨x, hx, hxe⟩
        cases hxe
        exact (List.mem_filter.1 hx).1
      · rw [if_neg hp] at hk
        cases hk
  · intro hp k hk
    simp only [pollCycleReactions, hp, Bool.false_eq_true, if_false, List.append_nil,
      List.mem_map] at hk
    rcases hk with ⟨x, _, hx⟩
    cases hx

/-- C3 witness: a cycle from cache `{a}` observing nothing emits
`removed a`, whose key the theorem places in the cache. -/
theorem reaction_removals_reference_cache_witness :
    ("a" : String) ∈ (ReactionPollState.mk ["a"] true).known_reactions :=
  (reaction_removals_reference_cache ⟨["a"], true⟩ []).1 "a" (by decide)

/-- C1: from a cache of exactly `{A, B}` left by a previous successful
cycle, a cycle observing exactly `{A, C}` emits exactly one
`reaction-added` for `C` and one `reaction-removed` for `B` and nothing
else (additions before removals), and ends with the cache replaced by
`{A, C}`. -/
theorem reaction_reconciliation_complete
    (A B C : String) (st : ReactionPollState) (observed : List String)
    (hAB : A ≠ B) (hAC : A ≠ C) (hBC : B ≠ C)
    (hp : st.has_polled = true)
    (hknod : st.known_reactions.Nodup)
    (hknown : ∀ k, k ∈ st.known_reactions ↔ k = A ∨ k = B)
    (hobsnod : observed.Nodup)
    (hobs : ∀ k, k ∈ observed ↔ k = A ∨ k = C) :
    (pollCycleReactions st observed).1 =
        [ReactionUpdate.added C, ReactionUpdate.removed B] ∧
    (∀ k, k ∈ (pollCycleReactions st observed).2.known_reactions ↔ k = A ∨ k = C) := by
  have hCnotK : C ∉ st.known_reactions := by
    intro h
    rcases (hknown C).1 h with h | h
    · exact hAC h.symm
    · exact hBC h.symm
  have hcur : ∀ k, k ∈ observed.foldl (fun acc x => acc.insert x) [] ↔ k = A ∨ k = C := by
    intro k
    rw [mem_foldl_insert]
    simp [hobs k]
  have hBnotCur : B ∉ observed.foldl (fun acc x => acc.insert x) [] := by
    intro h
    rcases (hcur B).1 h with h | h
    · exact hAB h.symm
    · exact hBC h
  have hadds : observed.filter (fun k => decide (k ∉ st.known_reactions)) = [C] := by
    have hcongr : observed.filter (fun k => decide (k ∉ st.known_reactions)) =
        observed.filter (fun k => decide (k = C)) := by
      refine List.filter_congr (fun x hx => ?_)
      rcases (hobs x).1 hx with h | h
      · subst h
        simp [hAC, (hknown x).2 (Or.inl rfl)]
      · subst h
        simp [hCnotK]
    rw [hcongr, List.filter_eq observed C,
      List.count_eq_one_of_mem hobsnod ((hobs C).2 (Or.inr rfl))]
    rfl
  have hrem : st.known_reactions.filter
      (fun k => decide (k ∉ observed.foldl (fun acc x => acc.insert x) [])) = [B] := by
    have hcongr : st.known_reactions.filter
        (fun k => decide (k ∉ observed.foldl (fun acc x => acc.insert x) [])) =
        st.known_reactions.filter (fun k => decide (k = B)) := by
      refine List.filter_congr (fun x hx => ?_)
      rcases (hknown x).1 hx with h | h
      · subst h
        simp [hAB, (hcur x).2 (Or.inl rfl)]
      · subst h
        simp [hBnotCur]
    rw [hcongr, List.filter_eq st.known_reactions B,
      List.count_eq_one_of_mem hknod ((hknown B).2 (Or.inr rfl))]
    rfl
  constructor
  · simp only [pollCycleReactions, hadds, hp, if_true, hrem, List.map_cons, List.map_nil]
    rfl
  · intro k
    simpa only [pollCycleReactions] using hcur k

/-- C1 witness: cache `{a, b}` and observation `{a, c}` yield exactly
`added c` then `removed b`, and the cache becomes `{a, c}`. -/
theorem reaction_reconciliation_complete_witness :
    (pollCycleReactions ⟨["a", "b"], true⟩ ["a", "c"]).1 =
        [ReactionUpdate.added "c", ReactionUpdate.removed "b"] ∧
    (∀ k, k ∈ (pollCycleReactions ⟨["a", "b"], true⟩ ["a", "c"]).2.known_reactions ↔
        k = "a" ∨ k = "c") :=
  reaction_reconciliation_complete "a" "b" "c" ⟨["a", "b"], true⟩ ["a", "c"]
    (by decide) (by decide) (by decide) rfl (by decide)
    (fun k => by simp) (by decide) (fun k => by simp)

/-- First-present-wins over any candidate list: candidates before `n`
absent, `n` present, yields the value of `n`. -/
lemma firstErrorField_append (fields : List (String × String))
    (pre suf : List String) (n : String) (v : String)
    (hpre : ∀ m ∈ pre, lookupField fields m = none)
    (hn : lookupField fields n = some v) :
    firstErrorField fields (pre ++ n :: suf) = some v := by
  induction pre with
  | nil => simp [firstErrorField, hn]
  | cons m ms ih =>
    rw [List.cons_append]
    unfold firstErrorField
    rw [hpre m (List.mem_cons_self m ms)]
    exact ih (fun x hx => hpre x (List.mem_cons_of_mem m hx))

/-- No candidate present yields no extracted value. -/
lemma firstErrorField_none (fields : List (String × String)) (cands : List String)
    (h : ∀ m ∈ cands, lookupField fields m = none) :
    firstErrorField fields cands = none := by
  induction cands with
  | nil => rfl
  | cons m ms ih =>
    unfold firstErrorField
    rw [h m (List.mem_cons_self m ms)]
    exact ih (fun x hx => h x (List.mem_cons_of_mem m hx))

/-- The message field of the classifier's result is the extracted
message, in every status branch. -/
lemma create_http_exception_message (r : HttpResponseModel) :
    (create_http_exception r).message = extractedMessage r.status_code r.body := by
  simp only [create_http_exception]
  split_ifs <;> rfl

/-- C5: the classifier returns the matching typed error for each status
in {400, 401, 403, 404, 409, 429, 500}; its message is built from the
first present JSON body field among `message`, `error`, `detail`,
`error_description` and defaults to `"HTTP <code>"` when the body is not
a JSON dict or none of the fields is present; and a 429 response with
header `Retry-After: 30` parses to a retry value of 30. -/
theorem create_http_exception_classifies (r : HttpResponseModel) :
    ((r.status_code = 400 → (create_http_exception r).kind = ErrorKind.validation) ∧
     (r.status_code = 401 → (create_http_exception r).kind = ErrorKind.authentication) ∧
     (r.status_code = 403 → (create_http_exception r).kind = ErrorKind.authorization) ∧
     (r.status_code = 404 → (create_http_exception r).kind = ErrorKind.notFound) ∧
     (r.status_code = 409 → (create_http_exception r).kind = ErrorKind.conflict) ∧
     (r.status_code = 429 → (create_http_exception r).kind = ErrorKind.rateLimit) ∧
     (r.status_code = 500 → (create_http_exception r).kind = ErrorKind.server)) ∧
    (∀ text, r.body = BodyContent.raw text →
        (create_http_exception r).message = "HTTP " ++ toString r.status_code) ∧
    (∀ fields, r.body = BodyContent.jsonDict fields →
      (∀ pre suf n v, errorMessageFields = pre ++ n :: suf →
          (∀ m ∈ pre, lookupField fields m = none) →
          lookupField fields n = some v →
          (create_http_exception r).message =
            "HTTP " ++ toString r.status_code ++ ": " ++ v) ∧
      ((∀ n ∈ errorMessageFields, lookupField fields n = none) →
          (create_http_exception r).message = "HTTP " ++ toString r.status_code)) ∧
    (r.status_code = 429 → r.retry_after_header = some "30" →
        (create_http_exception r).retry_after = some 30) := by
  refine ⟨⟨?_, ?_, ?_, ?_, ?_, ?_, ?_⟩, ?_, ?_, ?_⟩
  · intro h; simp [create_http_exception, h]
  · intro h; simp [create_http_exception, h]
  · intro h; simp [create_http_exception, h]
  · intro h; simp [create_http_exception, h]
  · intro h; simp [create_http_exception, h]
  · intro h; simp [create_http_exception, h]
  · intro h; simp [create_http_exception, h]
  · intro text hbody
    rw [create_http_exception_message, hbody]
    rfl
  · intro fields hbody
    constructor
    · intro pre suf n v hsplit hpre hn
      rw [create_http_exception_message, hbody]
      simp only [extractedMessage, hsplit, firstErrorField_append fields pre suf n v hpre hn]
    · intro habsent
      rw [create_http_exception_message, hbody]
      simp only [extractedMessage, firstErrorField_none fields errorMessageFields habsent]
  · intro h429 hheader
    have : parseFloatString "30" = some 30 := by decide
    simp [create_http_exception, h429, hheader, this]

/-- C5 witness: a 400 whose body carries `error` (with `message` absent)
classifies as validation with the extracted message, and the 429 /
`Retry-After: 30` case parses to 30. -/
theorem create_http_exception_classifies_witness :
    (create_http_exception ⟨400, BodyContent.jsonDict [("error", "bad request")], none⟩).kind =
        ErrorKind.validation ∧
    (create_http_exception ⟨400, BodyContent.jsonDict [("error", "bad request")], none⟩).message =
        "HTTP " ++ toString 400 ++ ": " ++ "bad request" ∧
    (create_http_exception ⟨429, BodyContent.raw "", some "30"⟩).retry_after = some 30 := by
  refine ⟨(create_http_exception_classifies _).1.1 rfl, ?_, ?_⟩
  · exact ((create_http_exception_classifies _).2.2.1 _ rfl).1 ["message"] ["detail",
      "error_description"] "error" "bad request" rfl (by decide) (by decide)
  · exact (create_http_exception_classifies _).2.2.2 rfl rfl

/-- C6 counterexample: for a final 429 with `Retry-After: 30` the
transport does sleep the parsed 30 seconds, but the `RateLimitError` it
raises leaves `retry_after` at `None` (`_handle_response` does not pass
the parsed value on), so the raised error does not carry 30. -/
theorem handle_response_429_retry_after_dropped :
    (handle_response rateLimited429).sleeps = [30] ∧
    (handle_response rateLimited429).outcome =
      Except.error ⟨ErrorKind.rateLimit, "Rate limit exceeded: 429", some 429, none⟩ ∧
    (none : Option ℚ) ≠ some 30 := by
  exact ⟨rfl, rfl, by decide⟩

/-- C6 amended: for every final 429 response, the transport sleeps the
parsed `Retry-After` value when the header is present and parses (and
does not sleep otherwise), and raises a rate-limit error whose
`retry_after` field is `None` — the parsed value is used only for the
courtesy sleep, not carried on the error. -/
theorem handle_response_429_behavior (r : HttpResponseModel) (h : r.status_code = 429) :
    (handle_response r).sleeps =
      (match r.retry_after_header.bind parseFloatString with
        | some w => [w]
        | none => []) ∧
    (handle_response r).outcome =
      Except.error ⟨ErrorKind.rateLimit, "Rate limit exceeded: " ++ toString r.status_code,
        some r.status_code, none⟩ := by
  unfold handle_response
  rw [if_pos h]
  exact ⟨rfl, rfl⟩

/-- C6 amended witness: the concrete 429 above sleeps 30 and raises the
rate-limit error with `retry_after = None`. -/
theorem handle_response_429_behavior_witness :
    (handle_response rateLimited429).sleeps =
      (match rateLimited429.retry_after_header.bind parseFloatString with
        | some w => [w]
        | none => []) ∧
    (handle_response rateLimited429).outcome =
      Except.error ⟨ErrorKind.rateLimit,
        "Rate limit exceeded: " ++ toString rateLimited429.status_code,
        some rateLimited429.status_code, none⟩ :=
  handle_response_429_behavior rateLimited429 rfl

/-- An `acquire` with no time elapsed and at least one token available:
no wait, one token consumed. -/
lemma acquire_no_elapse (s : RateLimiterState) (h1 : 1 ≤ s.tokens)
    (hb : s.tokens ≤ (s.burst : ℚ)) :
    s.acquire s.last_refill = (0, { s with tokens := s.tokens - 1 }) := by
  simp only [RateLimiterState.acquire, sub_self, zero_mul, add_zero, min_eq_right hb,
    if_pos h1]

/-- An `acquire` with no time elapsed and less than one token available:
wait `(1 - tokens) / rate` and leave the count at zero. -/
lemma acquire_empty (s : RateLimiterState) (h1 : ¬ 1 ≤ s.tokens)
    (hb : s.tokens ≤ (s.burst : ℚ)) :
    s.acquire s.last_refill =
      ((1 - s.tokens) / s.requests_per_second, { s with tokens := 0 }) := by
  simp only [RateLimiterState.acquire, sub_self, zero_mul, add_zero, min_eq_right hb,
    if_neg h1]

/-- Back-to-back `acquire` calls from a full bucket: the first `k ≤ burst`
calls do not wait and leave `burst - k` tokens. -/
lemma acquireSeq_full (s : RateLimiterState) (h : s.tokens = (s.burst : ℚ)) :
    ∀ k, k ≤ s.burst →
      s.acquireSeq k = (List.replicate k 0, { s with tokens := (s.burst : ℚ) - (k : ℚ) }) := by
  intro k
  induction k with
  | zero =>
    intro _
    have he : (s.burst : ℚ) - ((0 : ℕ) : ℚ) = s.tokens := by
      rw [h]
      push_cast
      ring
    rw [RateLimiterState.acquireSeq, he]
    rfl
  | succ k ih =>
    intro hk1
    have hk : k ≤ s.burst := Nat.le_of_succ_le hk1
    have hcast : ((k : ℚ) + 1) ≤ (s.burst : ℚ) := by
      exact_mod_cast hk1
    rw [RateLimiterState.acquireSeq, ih hk]
    have hstep := acquire_no_elapse { s with tokens := (s.burst : ℚ) - (k : ℚ) }
      (by simp only; linarith) (by simp only; linarith [Nat.cast_nonneg (α := ℚ) k])
    simp only at hstep
    rw [hstep]
    simp only [List.replicate_succ']
    have : (s.burst : ℚ) - (k : ℚ) - 1 = (s.burst : ℚ) - ((k : ℕ) + 1 : ℕ) := by
      push_cast
      ring
    rw [this]

/-- C7: `acquire` never rejects — it always returns a wait and a new
state; the wait is nonnegative, the token count stays in `[0, burst]`
after every call (refill is capped at `burst`, the post-wait count is set
to 0, never negative); and from a full bucket of `burst` tokens the
`burst + 1` back-to-back acquires wait `0, …, 0` and then exactly
`(1 - 0) / rate` — the `(b+1)`-th call blocks `(1 - remainder) / rate`
with remainder 0. -/
theorem rate_limiter_token_bucket (s : RateLimiterState) (now : ℚ)
    (hrate : 0 < s.requests_per_second) :
    (0 ≤ (s.acquire now).1) ∧
    (0 ≤ (s.acquire now).2.tokens ∧
      (s.acquire now).2.tokens ≤ ((s.acquire now).2.burst : ℚ)) ∧
    (s.tokens = (s.burst : ℚ) →
      (s.acquireSeq (s.burst + 1)).1 =
        List.replicate s.burst 0 ++ [(1 - 0) / s.requests_per_second]) := by
  refine ⟨?_, ?_, ?_⟩
  · simp only [RateLimiterState.acquire]
    split_ifs with h1
    · exact le_refl 0
    · have : (0 : ℚ) <
          1 - min ((s.burst : ℚ)) (s.tokens + (now - s.last_refill) * s.requests_per_second) := by
        linarith [not_le.1 h1]
      positivity
  · simp only [RateLimiterState.acquire]
    split_ifs with h1
    · constructor
      · simp only
        linarith
      · simp only
        have := min_le_left ((s.burst : ℚ))
          (s.tokens + (now - s.last_refill) * s.requests_per_second)
        linarith
    · exact ⟨le_refl 0, Nat.cast_nonneg s.burst⟩
  · intro h
    rw [RateLimiterState.acquireSeq, acquireSeq_full s h s.burst (le_refl s.burst)]
    have hstep := acquire_empty { s with tokens := (s.burst : ℚ) - (s.burst : ℚ) }
      (by simp only; norm_num) (by simp only; linarith [Nat.cast_nonneg (α := ℚ) s.burst])
    simp only at hstep
    rw [hstep]
    norm_num

/-- C7 witness: rate 2, burst 3, full bucket at clock 0 — the first call
does not wait, stays within bounds, and of 4 back-to-back acquires the
first three wait 0 and the fourth waits 1/2. -/
theorem rate_limiter_token_bucket_witness :
    (0 ≤ ((RateLimiterState.mk 2 3 3 0).acquire 0).1) ∧
    (0 ≤ ((RateLimiterState.mk 2 3 3 0).acquire 0).2.tokens ∧
      ((RateLimiterState.mk 2 3 3 0).acquire 0).2.tokens ≤
        (((RateLimiterState.mk 2 3 3 0).acquire 0).2.burst : ℚ)) ∧
    ((RateLimiterState.mk 2 3 3 0).tokens = ((RateLimiterState.mk 2 3 3 0).burst : ℚ) →
      ((RateLimiterState.mk 2 3 3 0).acquireSeq ((RateLimiterState.mk 2 3 3 0).burst + 1)).1 =
        List.replicate (RateLimiterState.mk 2 3 3 0).burst 0 ++
          [(1 - 0) / (RateLimiterState.mk 2 3 3 0).requests_per_second]) :=
  rate_limiter_token_bucket (RateLimiterState.mk 2 3 3 0) 0 (by norm_num)

/-- A run of the retry loop that hits `k` retryable failures from
attempt `a` on and then a non-retryable response: `k + 1` attempts (each
with its rate-limiter acquire), backoff sleeps `factor * 2 ^ attempt`
between consecutive attempts, and the final response returned. -/
lemma retryAux_success_run (cfg : RetryConfig) (script : ℕ → AttemptOutcome) :
    ∀ (k a f : ℕ) (r : HttpResponseModel),
      k + 1 ≤ f →
      (∀ i, i < k → cfg.retries (script (a + i))) →
      script (a + k) = AttemptOutcome.response r →
      r.status_code ∉ cfg.retry_on_status →
      retryAux cfg script a f =
        ⟨k + 1, (List.range k).map (fun i => cfg.retry_backoff_factor * 2 ^ (a + i)),
          Except.ok r⟩ := by
  intro k
  induction k with
  | zero =>
    intro a f r hf hfail hs hns
    match f, hf with
    | f' + 1, _ =>
      rw [Nat.add_zero] at hs
      simp only [retryAux, hs]
      rw [if_neg (fun hc => hns hc.2)]
      rfl
  | succ k ih =>
    intro a f r hf hfail hs hns
    match f, hf with
    | f' + 1, hf =>
      have hf' : k + 1 ≤ f' := by omega
      have h0 := hfail 0 (Nat.succ_pos k)
      rw [Nat.add_zero] at h0
      have hrec : retryAux cfg script (a + 1) f' =
          ⟨k + 1, (List.range k).map (fun i => cfg.retry_backoff_factor * 2 ^ (a + 1 + i)),
            Except.ok r⟩ := by
        refine ih (a + 1) f' r hf' (fun i hi => ?_) ?_ hns
        · have := hfail (i + 1) (by omega)
          rwa [show a + (i + 1) = a + 1 + i by omega] at this
        · rwa [show a + (k + 1) = a + 1 + k by omega] at hs
      have hsleeps :
          cfg.retry_backoff_factor * 2 ^ a ::
              (List.range k).map (fun i => cfg.retry_backoff_factor * 2 ^ (a + 1 + i)) =
            (List.range (k + 1)).map (fun i => cfg.retry_backoff_factor * 2 ^ (a + i)) := by
        rw [List.range_succ_eq_map, List.map_cons, List.map_map]
        refine congrArg₂ List.cons (by rw [Nat.add_zero]) ?_
        refine List.map_congr_left (fun i _ => ?_)
        simp only [Function.comp_apply]
        rw [show a + Nat.succ i = a + 1 + i by omega]
      cases hsa : script a with
      | response r0 =>
        rw [hsa] at h0
        have hmem : r0.status_code ∈ cfg.retry_on_status := h0
        simp only [retryAux, hsa]
        rw [if_pos ⟨by omega, hmem⟩, hrec]
        simp only
        rw [hsleeps]
      | network_error e =>
        simp only [retryAux, hsa]
        rw [if_pos (by omega : 0 < f'), hrec]
        simp only
        rw [hsleeps]

/-- A run of the retry loop in which every attempted outcome is
retryable ends in the wrapped loop error or returns a final response
whose status is itself in the retryable set. -/
lemma retryAux_exhaust (cfg : RetryConfig) (script : ℕ → AttemptOutcome) :
    ∀ (f a : ℕ),
      (∀ i, i < f → cfg.retries (script (a + i))) →
      (∃ e, (retryAux cfg script a f).outcome = Except.error e) ∨
      (∃ r, (retryAux cfg script a f).outcome = Except.ok r ∧
          r.status_code ∈ cfg.retry_on_status) := by
  intro f
  induction f with
  | zero =>
    intro a _
    exact Or.inl ⟨_, rfl⟩
  | succ f ih =>
    intro a hfail
    have h0 := hfail 0 (Nat.succ_pos f)
    rw [Nat.add_zero] at h0
    have hshift : ∀ i, i < f → cfg.retries (script (a + 1 + i)) := by
      intro i hi
      have := hfail (i + 1) (by omega)
      rwa [show a + (i + 1) = a + 1 + i by omega] at this
    cases hsa : script a with
    | response r0 =>
      rw [hsa] at h0
      have hmem : r0.status_code ∈ cfg.retry_on_status := h0
      by_cases hfz : 0 < f
      · simp only [retryAux, hsa]
        rw [if_pos ⟨hfz, hmem⟩]
        exact ih (a + 1) hshift
      · simp only [retryAux, hsa]
        rw [if_neg (fun hc => hfz hc.1)]
        exact Or.inr ⟨r0, rfl, hmem⟩
    | network_error e =>
      by_cases hfz : 0 < f
      · simp only [retryAux, hsa]
        rw [if_pos hfz]
        exact ih (a + 1) hshift
      · simp only [retryAux, hsa]
        rw [if_neg hfz]
        exact Or.inl ⟨_, rfl⟩

/-- Any final response with status at least 400 makes `_handle_response`
raise. -/
lemma handle_response_error_of_ge (r : HttpResponseModel) (h400 : 400 ≤ r.status_code) :
    ∃ e, (handle_response r).outcome = Except.error e := by
  unfold handle_response
  by_cases h1 : r.status_code = 429
  · rw [if_pos h1]
    exact ⟨_, rfl⟩
  · rw [if_neg h1]
    by_cases h2 : r.status_code = 401
    · rw [if_pos h2]
      exact ⟨_, rfl⟩
    · rw [if_neg h2, if_pos h400]
      exact ⟨_, rfl⟩

/-- C4: a transport call that fails retryably on the first `k` attempts
(retryable status or network/timeout exception) and gets a non-retryable
response on attempt `k` makes exactly `k + 1` attempts — one rate-limiter
acquire per attempt — sleeping `backoff_factor * 2 ^ attempt` between
consecutive attempts, and returns that response; and when every one of
the `max_retries + 1` attempts fails (with a retryable set of
error statuses, as the default `{429, 500, 502, 503, 504}` is), the
request raises a transport error. -/
theorem transport_retry_behavior (cfg : RetryConfig) (script : ℕ → AttemptOutcome) :
    (∀ (k : ℕ) (r : HttpResponseModel), k ≤ cfg.max_retries →
        (∀ i, i < k → cfg.retries (script i)) →
        script k = AttemptOutcome.response r →
        r.status_code ∉ cfg.retry_on_status →
        make_request_with_retries cfg script =
          ⟨k + 1, (List.range k).map (fun i => cfg.retry_backoff_factor * 2 ^ i),
            Except.ok r⟩) ∧
    ((∀ s ∈ cfg.retry_on_status, 400 ≤ s) →
        (∀ i, i ≤ cfg.max_retries → cfg.retries (script i)) →
        ∃ e, requestOutcome cfg script = Except.error e) := by
  constructor
  · intro k r hk hfail hs hns
    unfold make_request_with_retries
    have := retryAux_success_run cfg script k 0 (cfg.max_retries + 1) r (by omega)
      (fun i hi => by simpa using hfail i hi) (by simpa using hs) hns
    rw [this]
    simp
  · intro hst hfail
    have hall : ∀ i, i < cfg.max_retries + 1 → cfg.retries (script (0 + i)) := by
      intro i hi
      simpa using hfail i (by omega)
    rcases retryAux_exhaust cfg script (cfg.max_retries + 1) 0 hall with ⟨e, he⟩ | ⟨r, hr, hmem⟩
    · refine ⟨⟨ErrorKind.generic, e, none, none⟩, ?_⟩
      unfold requestOutcome make_request_with_retries
      rw [he]
    · obtain ⟨e, he⟩ := handle_response_error_of_ge r (hst _ hmem)
      refine ⟨e, ?_⟩
      unfold requestOutcome make_request_with_retries
      rw [hr]
      exact he

/-- C4 witness: default retryable set, backoff factor 1, `max_retries`
3; attempt 0 returns 500 (retryable), attempt 1 returns 200 — exactly 2
attempts, one backoff sleep of `1 * 2 ^ 0`, final response 200. -/
theorem transport_retry_behavior_witness :
    make_request_with_retries ⟨3, 1, defaultRetryOnStatus⟩
        (fun i => if i = 0 then AttemptOutcome.response ⟨500, BodyContent.raw "", none⟩
          else AttemptOutcome.response ⟨200, BodyContent.raw "ok", none⟩) =
      ⟨1 + 1, (List.range 1).map (fun i => (1 : ℚ) * 2 ^ i),
        Except.ok ⟨200, BodyContent.raw "ok", none⟩⟩ :=
  (transport_retry_behavior ⟨3, 1, defaultRetryOnStatus⟩ _).1 1 ⟨200, BodyContent.raw "ok", none⟩
    (by norm_num)
    (fun i hi => by
      have hi0 : i = 0 := by omega
      subst hi0
      show (500 : ℕ) ∈ defaultRetryOnStatus
      decide)
    rfl
    (by decide)

/-- The running maximum of `_poll_channel_posts` never drops below its
start value. -/
lemma le_foldl_max (l : List PostModel) (b : ℕ) :
    b ≤ l.foldl (fun acc p => max acc (p.create_at.getD 0)) b := by
  induction l generalizing b with
  | nil => exact le_refl b
  | cons p ps ih => exact le_trans (le_max_left _ _) (ih _)

/-- The running maximum bounds every element it has seen. -/
lemma mem_le_foldl_max (l : List PostModel) (b : ℕ) :
    ∀ p ∈ l, p.create_at.getD 0 ≤ l.foldl (fun acc q => max acc (q.create_at.getD 0)) b := by
  induction l generalizing b with
  | nil => simp
  | cons q qs ih =>
    intro p hp
    rcases List.mem_cons.1 hp with rfl | hp
    · exact le_trans (le_max_right _ _) (le_foldl_max qs _)
    · exact ih _ p hp

/-- The running maximum is its start value or the key of some element. -/
lemma foldl_max_attained (l : List PostModel) (b : ℕ) :
    l.foldl (fun acc q => max acc (q.create_at.getD 0)) b = b ∨
    ∃ p ∈ l, l.foldl (fun acc q => max acc (q.create_at.getD 0)) b = p.create_at.getD 0 := by
  induction l generalizing b with
  | nil => exact Or.inl rfl
  | cons q qs ih =>
    rw [List.foldl_cons]
    rcases ih (max b (q.create_at.getD 0)) with h | ⟨p, hp, h⟩
    · rw [h]
      rcases Nat.le_total (q.create_at.getD 0) b with hle | hle
      · exact Or.inl (max_eq_left hle)
      · exact Or.inr ⟨q, List.mem_cons_self q qs, max_eq_right hle⟩
    · exact Or.inr ⟨p, List.mem_cons_of_mem q hp, h⟩

/-- The source guard holds exactly for posts with a strictly newer
creation timestamp (the extra truthiness test `post.create_at` is
subsumed: `t > since` already forces `t ≠ 0`). -/
lemma postIsNew_iff (since : ℕ) (p : PostModel) :
    postIsNew since p = true ↔ ∃ t, p.create_at = some t ∧ since < t := by
  cases hc : p.create_at with
  | none => simp [postIsNew, hc]
  | some t =>
    simp only [postIsNew, hc, Bool.and_eq_true, ne_eq, decide_eq_true_eq, Option.some.injEq]
    constructor
    · rintro ⟨_, h⟩
      exact ⟨t, rfl, h⟩
    · rintro ⟨t', ht', h⟩
      subst ht'
      exact ⟨by omega, h⟩

/-- C8: one post poll cycle emits exactly the fetched posts whose
`create_at` is strictly greater than the stored timestamp, in ascending
`create_at` order; the stored timestamp never decreases (also across any
sequence of cycles), bounds every emitted post, and is either unchanged
or the `create_at` of an emitted post (the raised maximum). -/
theorem post_poll_reconciliation (since : ℕ) (fetched : List PostModel) :
    (since ≤ (poll_channel_posts since fetched).new_since) ∧
    ((poll_channel_posts since fetched).emitted.Perm (fetched.filter (postIsNew since))) ∧
    (∀ p, p ∈ (poll_channel_posts since fetched).emitted ↔
        p ∈ fetched ∧ ∃ t, p.create_at = some t ∧ since < t) ∧
    List.Sorted (fun p q => postSortKey p ≤ postSortKey q)
      (poll_channel_posts since fetched).emitted ∧
    (∀ p ∈ (poll_channel_posts since fetched).emitted,
        postSortKey p ≤ (poll_channel_posts since fetched).new_since) ∧
    ((poll_channel_posts since fetched).new_since = since ∨
        ∃ p ∈ (poll_channel_posts since fetched).emitted,
          postSortKey p = (poll_channel_posts since fetched).new_since) ∧
    (∀ (pages : List (List PostModel)) (s : ℕ), s ≤ poll_posts_iter s pages) := by
  haveI htot : IsTotal PostModel (fun p q => postSortKey p ≤ postSortKey q) :=
    ⟨fun a b => Nat.le_total _ _⟩
  haveI htr : IsTrans PostModel (fun p q => postSortKey p ≤ postSortKey q) :=
    ⟨fun a b c hab hbc => Nat.le_trans hab hbc⟩
  have hperm : (poll_channel_posts since fetched).emitted.Perm
      (fetched.filter (postIsNew since)) :=
    List.perm_insertionSort _ _
  have hnewsince : (poll_channel_posts since fetched).new_since =
      (if since <
          (fetched.filter (postIsNew since)).foldl
            (fun acc p => max acc (p.create_at.getD 0)) since
        then (fetched.filter (postIsNew since)).foldl
            (fun acc p => max acc (p.create_at.getD 0)) since
        else since) := rfl
  have hiter : ∀ (pages : List (List PostModel)) (s : ℕ), s ≤ poll_posts_iter s pages := by
    intro pages
    induction pages with
    | nil => intro s; exact le_refl s
    | cons f fs ih =>
      intro s
      refine le_trans ?_ (ih (poll_channel_posts s f).new_since)
      rw [show (poll_channel_posts s f).new_since =
          (if s < (f.filter (postIsNew s)).foldl (fun acc p => max acc (p.create_at.getD 0)) s
            then (f.filter (postIsNew s)).foldl (fun acc p => max acc (p.create_at.getD 0)) s
            else s) from rfl]
      split
      · exact le_foldl_max _ _
      · exact le_refl s
  refine ⟨?_, hperm, ?_, ?_, ?_, ?_, hiter⟩
  · rw [hnewsince]
    split
    · exact le_foldl_max _ _
    · exact le_refl since
  · intro p
    rw [hperm.mem_iff, List.mem_filter, postIsNew_iff]
  · exact List.sorted_insertionSort _ _
  · intro p hp
    have hmem : p ∈ fetched.filter (postIsNew since) := hperm.mem_iff.1 hp
    have hbound := mem_le_foldl_max (fetched.filter (postIsNew since)) since p hmem
    rw [hnewsince]
    split
    · exact hbound
    · next h => exact le_trans hbound (Nat.le_of_not_lt h)
  · rcases foldl_max_attained (fetched.filter (postIsNew since)) since with h | ⟨p, hp, h⟩
    · left
      rw [hnewsince, h]
      simp
    · rw [hnewsince]
      split
      · right
        exact ⟨p, hperm.mem_iff.2 hp, h.symm⟩
      · left
        rfl

/-- C8 witness: stored timestamp 100, fetched posts at 300, 200 and 50 —
the post at 300 is emitted and the stored timestamp does not decrease. -/
theorem post_poll_reconciliation_witness :
    (PostModel.mk "p1" (some 300)) ∈
        (poll_channel_posts 100
          [⟨"p1", some 300⟩, ⟨"p2", some 200⟩, ⟨"p3", some 50⟩]).emitted ∧
    100 ≤ (poll_channel_posts 100
        [⟨"p1", some 300⟩, ⟨"p2", some 200⟩, ⟨"p3", some 50⟩]).new_since :=
  ⟨((post_poll_reconciliation 100 [⟨"p1", some 300⟩, ⟨"p2", some 200⟩, ⟨"p3", some 50⟩]).2.2.1
      ⟨"p1", some 300⟩).2 ⟨by decide, 300, rfl, by decide⟩,
    (post_poll_reconciliation 100 [⟨"p1", some 300⟩, ⟨"p2", some 200⟩, ⟨"p3", some 50⟩]).1⟩

/-- A streak of connection failures within the attempt ceiling: the
`i`-th failure (0-based position, counter `a + i + 1` after increment)
sleeps `min(reconnect_delay * 2 ^ (a + i + 1), 300)` and the loop keeps
running. -/
lemma connRun_fail_run (cfg : WsConfig) (hauto : cfg.auto_reconnect = true) :
    ∀ (n a : ℕ), a + n ≤ cfg.max_reconnect_attempts →
      connRun cfg a (List.replicate n ConnIterEvent.authFail) =
        ⟨(List.range n).map
            (fun i => min (cfg.reconnect_delay * 2 ^ (a + i + 1)) reconnectCap),
          false⟩ := by
  intro n
  induction n with
  | zero =>
    intro a _
    rfl
  | succ n ih =>
    intro a hn
    have hstep : connStep cfg a ConnIterEvent.authFail =
        ConnStepResult.retry (min (cfg.reconnect_delay * 2 ^ (a + 1)) reconnectCap) (a + 1) := by
      simp only [connStep, hauto, Bool.true_eq_false, if_false]
      rw [if_neg (by omega : ¬ cfg.max_reconnect_attempts < a + 1)]
    rw [List.replicate_succ, connRun]
    simp only [hstep]
    rw [ih (a + 1) (by omega)]
    simp only [List.range_succ_eq_map, List.map_cons, List.map_map]
    refine congrArg₂ ConnTrace.mk (congrArg₂ List.cons ?_ ?_) rfl
    · rw [Nat.add_zero]
    · refine List.map_congr_left (fun i _ => ?_)
      simp only [Function.comp_apply]
      rw [show a + Nat.succ i + 1 = a + 1 + i + 1 by omega]

/-- A streak of connection failures crossing the attempt ceiling: the
loop breaks (no exception) after having slept for the remaining allowed
retries. -/
lemma connRun_fail_exhaust (cfg : WsConfig) (hauto : cfg.auto_reconnect = true) :
    ∀ (n a : ℕ), a ≤ cfg.max_reconnect_attempts →
      cfg.max_reconnect_attempts < a + n →
      (connRun cfg a (List.replicate n ConnIterEvent.authFail)).stopped = true ∧
      (connRun cfg a (List.replicate n ConnIterEvent.authFail)).delays.length =
        cfg.max_reconnect_attempts - a := by
  intro n
  induction n with
  | zero =>
    intro a ha hn
    omega
  | succ n ih =>
    intro a ha hn
    rw [List.replicate_succ, connRun]
    by_cases hceil : cfg.max_reconnect_attempts < a + 1
    · have hstep : connStep cfg a ConnIterEvent.authFail = ConnStepResult.gaveUp := by
        simp only [connStep, hauto, Bool.true_eq_false, if_false]
        rw [if_pos hceil]
      simp only [hstep]
      exact ⟨trivial, by simp only [List.length_nil]; omega⟩
    · have hstep : connStep cfg a ConnIterEvent.authFail =
          ConnStepResult.retry (min (cfg.reconnect_delay * 2 ^ (a + 1)) reconnectCap)
            (a + 1) := by
        simp only [connStep, hauto, Bool.true_eq_false, if_false]
        rw [if_neg hceil]
      simp only [hstep]
      obtain ⟨h1, h2⟩ := ih (a + 1) (by omega) (by omega)
      refine ⟨h1, ?_⟩
      simp only [List.length_cons, h2]
      omega

/-- C9: with auto-reconnect on, the delay slept after the `n`-th
consecutive connection failure is `min(reconnect_delay * 2 ^ n, 300)`;
the resulting delay sequence is non-decreasing and capped at 300; a
successful connect-and-authenticate resets the attempt counter, so the
failure ending that connection retries with counter 1 whatever the
counter was before; and once the counter would exceed
`max_reconnect_attempts` the loop stops for good without raising, after
exactly `max_reconnect_attempts` delays. -/
theorem reconnect_backoff (cfg : WsConfig)
    (hauto : cfg.auto_reconnect = true) (hdelay : 0 ≤ cfg.reconnect_delay) :
    (∀ n, n ≤ cfg.max_reconnect_attempts →
        (connRun cfg 0 (List.replicate n ConnIterEvent.authFail)).delays =
          (List.range n).map (fun i => min (cfg.reconnect_delay * 2 ^ (i + 1)) reconnectCap)) ∧
    (∀ n, n ≤ cfg.max_reconnect_attempts →
        List.Pairwise (fun d e => d ≤ e)
          (connRun cfg 0 (List.replicate n ConnIterEvent.authFail)).delays ∧
        ∀ d ∈ (connRun cfg 0 (List.replicate n ConnIterEvent.authFail)).delays,
          d ≤ reconnectCap) ∧
    (∀ a, 1 ≤ cfg.max_reconnect_attempts →
        connStep cfg a ConnIterEvent.connectedThenLost =
          ConnStepResult.retry (min (cfg.reconnect_delay * 2 ^ 1) reconnectCap) 1) ∧
    (∀ n, cfg.max_reconnect_attempts < n →
        (connRun cfg 0 (List.replicate n ConnIterEvent.authFail)).stopped = true ∧
        (connRun cfg 0 (List.replicate n ConnIterEvent.authFail)).delays.length =
          cfg.max_reconnect_attempts) := by
  have hform : ∀ n, n ≤ cfg.max_reconnect_attempts →
      (connRun cfg 0 (List.replicate n ConnIterEvent.authFail)).delays =
        (List.range n).map (fun i => min (cfg.reconnect_delay * 2 ^ (i + 1)) reconnectCap) := by
    intro n hn
    rw [connRun_fail_run cfg hauto n 0 (by omega)]
    exact List.map_congr_left (fun i _ => by rw [Nat.zero_add])
  have hmono : ∀ i j : ℕ, i ≤ j →
      min (cfg.reconnect_delay * 2 ^ (i + 1)) reconnectCap ≤
        min (cfg.reconnect_delay * 2 ^ (j + 1)) reconnectCap := by
    intro i j hij
    refine min_le_min ?_ (le_refl _)
    refine mul_le_mul_of_nonneg_left ?_ hdelay
    exact pow_le_pow_right₀ one_le_two (by omega)
  refine ⟨hform, ?_, ?_, ?_⟩
  · intro n hn
    rw [hform n hn]
    constructor
    · rw [List.pairwise_map]
      refine (List.pairwise_lt_range n).imp ?_
      intro i j hij
      exact hmono i j (Nat.le_of_lt hij)
    · intro d hd
      rcases List.mem_map.1 hd with ⟨i, _, rfl⟩
      exact min_le_right _ _
  · intro a h1
    simp only [connStep, hauto, Bool.true_eq_false, if_false]
    rw [if_neg (by omega : ¬ cfg.max_reconnect_attempts < 0 + 1)]
  · intro n hn
    have := connRun_fail_exhaust cfg hauto n 0 (by omega) (by omega)
    simpa using this

/-- C9 witness: base delay 5, ceiling 3, auto-reconnect on — two
consecutive failures sleep `min(5*2, 300)` then `min(5*4, 300)`. -/
theorem reconnect_backoff_witness :
    (connRun ⟨true, 5, 3⟩ 0 (List.replicate 2 ConnIterEvent.authFail)).delays =
      (List.range 2).map (fun i => min ((5 : ℚ) * 2 ^ (i + 1)) reconnectCap) :=
  (reconnect_backoff ⟨true, 5, 3⟩ rfl (by norm_num)).1 2 (by norm_num)

end MattermostMCP
